import Mathlib

/-!
# jlog: a levelled line logger over package log

A shallow embedding of `jlog.go`.  The package variable `jl` is passed explicitly:
`Init` receives its previous value (nil or allocated) and returns the `JLogger` it now
points to, and every other exported function is a state transformer on that `JLogger`
(a call while `jl` is nil panics in Go and has no counterpart here).  The clock and
the caller's stack frame that a logging call reads are arguments of the call.  The
collaborators from the Go standard library (`log.Logger`, `fmt.Sprintln`,
`fmt.Sprintf`, `time.Time.Format`, `strconv.Itoa`, `strings.LastIndex`) are embedded
alongside the code that calls them.

Go strings are modelled as lists of characters (valid UTF-8 text); an index into a
string counts characters.  The separators the code searches for are ASCII, so the
slices it takes are the same text as in the byte view.
-/

namespace Jlog

/-- Go `string`. -/
abbrev GoString := List Char

/-! ## Constants of jlog.go -/

/-- Log level INFO. -/
def INFO : Int := 200
/-- Log level DEBUG. -/
def DEBUG : Int := 201

/-- Flag bit `1 << iota`, iota = 0. -/
def Ldate : Nat := 1 <<< 0
/-- Flag bit, iota = 1. -/
def Ltime : Nat := 1 <<< 1
/-- Flag bit, iota = 2. -/
def Lmicroseconds : Nat := 1 <<< 2
/-- Flag bit, iota = 3. -/
def Llongfile : Nat := 1 <<< 3
/-- Flag bit, iota = 4. -/
def Lshortfile : Nat := 1 <<< 4
/-- Flag bit, iota = 5. -/
def LUTC : Nat := 1 <<< 5
/-- Flag bit, iota = 6. -/
def Lmsgprefix : Nat := 1 <<< 6
/-- Flags `Ldate | Ltime`. -/
def LstdFlags : Nat := Ldate ||| Ltime

/-! ## strconv, strings -/

/-- Decimal digits of a natural number, most significant first, appended to `acc`.
`fuel` bounds the number of digits. -/
def digitsAux : Nat → Nat → List Char → List Char
  | 0, _, acc => acc
  | fuel + 1, n, acc =>
    let acc1 := Char.ofNat (48 + n % 10) :: acc
    if n / 10 = 0 then acc1 else digitsAux fuel (n / 10) acc1

/-- Decimal rendering of a natural number ("0" for zero). -/
def natDecimal (n : Nat) : GoString := digitsAux (n + 1) n []

/-- The number that a string of decimal digits denotes. -/
def decimalValue (s : GoString) : Nat := s.foldl (fun a c => 10 * a + (c.toNat - 48)) 0

/-- Go `strconv.Itoa`: the base-10 rendering of an int, with a leading minus sign
for negative values. -/
def Itoa (i : Int) : GoString :=
  if i < 0 then '-' :: natDecimal i.natAbs else natDecimal i.natAbs

/-- Index of the last occurrence of `c` in `s` when scanning from position `pos`,
given the best index found so far. -/
def lastIndexFrom (c : Char) : GoString → Nat → Int → Int
  | [], _, best => best
  | x :: xs, pos, best => lastIndexFrom c xs (pos + 1) (if x = c then (pos : Int) else best)

/-- Go `strings.LastIndex(s, sep)` for a one-character separator: the index of the
last occurrence of `sep` in `s`, or -1 when there is none. -/
def LastIndex (s : GoString) (sep : Char) : Int := lastIndexFrom sep s 0 (-1)

/-- The part of `s` after its last `sep`, and all of `s` when it holds no `sep`. -/
def afterLast (sep : Char) : GoString → GoString
  | [] => []
  | c :: cs => if sep ∈ cs then afterLast sep cs else if c = sep then cs else c :: cs

/-- The base name of a slash-separated path: the part after its last slash, and all
of the path when it has no slash. -/
def baseName (fn : GoString) : GoString := afterLast '/' fn

/-- Go slice expression `s[lo:]` for an index `lo` that is known to be non-negative. -/
def sliceFrom (s : GoString) (lo : Int) : GoString := s.drop lo.toNat

/-! ## time -/

/-- A clock reading, broken down into the calendar fields that `Time.Format` prints
and the zone offset in seconds east of UTC. -/
structure Time where
  year : Int
  month : Nat
  day : Nat
  hour : Nat
  minute : Nat
  second : Nat
  offset : Int
deriving DecidableEq, Repr

/-- Go `time.appendInt`: sign, then the decimal digits of the magnitude, zero padded
on the left to `width` digits. -/
def appendInt (x : Int) (width : Nat) : GoString :=
  let ds := natDecimal x.natAbs
  let body := List.replicate (width - ds.length) '0' ++ ds
  if x < 0 then '-' :: body else body

/-- Zone designator of the layout element `Z07:00`: `Z` for offset zero, otherwise
sign, hours and minutes of the offset. -/
def formatZone (offset : Int) : GoString :=
  if offset = 0 then ['Z']
  else
    let zone := Int.tdiv offset 60
    let sign := if zone < 0 then '-' else '+'
    let z : Int := if zone < 0 then -zone else zone
    sign :: (appendInt (Int.tdiv z 60) 2 ++ ':' :: appendInt (Int.tmod z 60) 2)

/-- Go `t.Format(time.RFC3339)`, layout `2006-01-02T15:04:05Z07:00`. -/
def RFC3339 (t : Time) : GoString :=
  appendInt t.year 4 ++ '-' :: appendInt t.month 2 ++ '-' :: appendInt t.day 2 ++
    'T' :: appendInt t.hour 2 ++ ':' :: appendInt t.minute 2 ++ ':' :: appendInt t.second 2 ++
    formatZone t.offset

/-! ## runtime -/

/-- Result of `runtime.Caller(skip)` without the program counter: file, line, ok. -/
structure Frame where
  file : GoString
  line : Int
  ok : Bool
deriving DecidableEq, Repr

/-- What one logging call reads from its surroundings: the wall clock and the stack
frame two levels above `generateStdflagShortFile`. -/
structure Env where
  now : Time
  caller : Frame
deriving DecidableEq, Repr

/-- Source `generateStdflagShortFile`: timestamp, a space, the short file and line of
the caller (empty when the frame is unavailable), then a colon and a space. -/
def generateStdflagShortFile (env : Env) : GoString :=
  let sf : GoString :=
    if env.caller.ok then
      let sf0 := env.caller.file ++ ":".toList ++ Itoa env.caller.line
      let index := LastIndex sf0 '/'
      sliceFrom sf0 (index + 1)
    else []
  RFC3339 env.now ++ " ".toList ++ sf ++ ": ".toList

/-! ## fmt

The control flow of `fmt.Sprintln` and `fmt.Sprintf` (Go 1.21, `fmt/print.go`).
How a single operand is rendered under a verb is reflection-driven and open-ended
(any Go type, `fmt.Stringer`, `fmt.Formatter`, ...); it is a parameter of the
embedding. -/

/-- Flags, width and precision of the directive being processed (Go `fmt.fmt`). -/
structure fmtFlags where
  widPresent : Bool := false
  precPresent : Bool := false
  minus : Bool := false
  plus : Bool := false
  sharp : Bool := false
  space : Bool := false
  zero : Bool := false
  plusV : Bool := false
  sharpV : Bool := false
  wid : Int := 0
  prec : Int := 0
deriving DecidableEq, Repr

/-- The operand side of package fmt over a universe `Value` of Go values
(`interface{}` operands): `printArg` renders one operand under a verb with the current
flags, `typeString` is `reflect.TypeOf(arg).String()`, `isNil` is `arg == nil`, and
`intValue` is the operand as an `int` when it has integer kind and fits. -/
structure Printer (Value : Type) where
  printArg : fmtFlags → Value → Char → GoString
  typeString : Value → GoString
  isNil : Value → Bool
  intValue : Value → Option Int

section fmt
variable {Value : Type} (F : Printer Value)

/-- Go `fmt.Sprintln`: every operand under verb v, a space between operands, and a
newline at the end. -/
def Sprintln (a : List Value) : GoString :=
  List.intercalate " ".toList (a.map (fun arg => F.printArg {} arg 'v')) ++ ['\n']

/-- Go `fmt.tooLarge`: the magnitude is too large for a width or precision. -/
def tooLarge (x : Int) : Bool := decide (x > 1000000 ∨ x < -1000000)

/-- The digit loop of `parsenum` over the characters `s[newi:end]`. -/
def parsenumLoop (end_ : Nat) : List Char → Nat → Int → Bool → Int × Bool × Nat
  | [], newi, num, isnum => (num, isnum, newi)
  | c :: cs, newi, num, isnum =>
    if '0' ≤ c ∧ c ≤ '9' then
      if tooLarge num then (0, false, end_)
      else parsenumLoop end_ cs (newi + 1) (num * 10 + ((c.toNat - '0'.toNat : Nat) : Int)) true
    else (num, isnum, newi)

/-- Go `fmt.parsenum(s, start, end)`: the number at `s[start:end]`, whether there is
one, and the index after it. -/
def parsenum (s : GoString) (start end_ : Nat) : Int × Bool × Nat :=
  if start ≥ end_ then (0, false, end_)
  else parsenumLoop end_ ((s.take end_).drop start) start 0 false

/-- Go `fmt.intFromArg`: the operand at `argNum` as a width or precision. -/
def intFromArg (a : List Value) (argNum : Nat) : Int × Bool × Nat :=
  match a.get? argNum with
  | none => (0, false, argNum)
  | some v =>
    let r : Int × Bool := match F.intValue v with
      | some n => (n, true)
      | none => (0, false)
    if tooLarge r.1 then (0, false, argNum + 1) else (r.1, r.2, argNum + 1)

/-- Go `fmt.parseArgNumber`: `format` starts at an opening bracket; returns the
zero-based index, the number of characters to consume, and whether it parsed. -/
def parseArgNumber (format : GoString) : Int × Nat × Bool :=
  if format.length < 3 then (0, 1, false)
  else
    let k := (format.drop 1).indexOf ']'
    if k < (format.drop 1).length then
      let i := k + 1
      let r := parsenum format 1 i
      if !r.2.1 || r.2.2 != i then (0, i + 1, false) else (r.1 - 1, i + 1, true)
    else (0, 1, false)

/-- Go `(*pp).argNumber`, returning `(newArgNum, newi, found)` and the new values of
`p.reordered` and `p.goodArgNum`. -/
def argNumber (argNum : Nat) (format : GoString) (i : Nat) (numArgs : Nat)
    (reordered goodArgNum : Bool) : (Nat × Nat × Bool) × Bool × Bool :=
  if format.length ≤ i ∨ format.get? i ≠ some '[' then ((argNum, i, false), reordered, goodArgNum)
  else
    let r := parseArgNumber (format.drop i)
    if r.2.2 ∧ 0 ≤ r.1 ∧ r.1 < numArgs then ((r.1.toNat, i + r.2.1, true), true, goodArgNum)
    else ((argNum, i + r.2.1, r.2.2), true, false)

/-- What processing one directive yields: the text written, the index in the format
after the directive, the next operand index and `p.reordered`. -/
structure Directive where
  out : GoString
  newi : Nat
  argNum : Nat
  reordered : Bool
deriving DecidableEq, Repr

/-- The flag loop of `doPrintf` (label `simpleFormat`) from index `i` of `format`:
either the directive is finished on the fast path (a lower-case verb right after the
flags, with an operand left), or the index where the flags stop. -/
def simpleFormat (a : List Value) (argNum : Nat) (reordered : Bool) :
    List Char → Nat → fmtFlags → Directive ⊕ (Nat × fmtFlags)
  | [], i, f => .inr (i, f)
  | c :: cs, i, f =>
    if c = '#' then simpleFormat a argNum reordered cs (i + 1) { f with sharp := true }
    else if c = '0' then simpleFormat a argNum reordered cs (i + 1) { f with zero := !f.minus }
    else if c = '+' then simpleFormat a argNum reordered cs (i + 1) { f with plus := true }
    else if c = '-' then
      simpleFormat a argNum reordered cs (i + 1) { f with minus := true, zero := false }
    else if c = ' ' then simpleFormat a argNum reordered cs (i + 1) { f with space := true }
    else
      match a.get? argNum with
      | some arg =>
        if 'a' ≤ c ∧ c ≤ 'z' then
          let f1 : fmtFlags :=
            if c = 'w' ∨ c = 'v' then
              { f with sharpV := f.sharp, sharp := false, plusV := f.plus, plus := false }
            else f
          .inl ⟨F.printArg f1 arg c, i + 1, argNum + 1, reordered⟩
        else .inr (i, f)
      | none => .inr (i, f)

/-- One directive of `doPrintf`: `format` is the text after the percent sign, and the
result index is relative to it. -/
def verbStep (a : List Value) (format : GoString) (argNum0 : Nat) (reordered0 : Bool) :
    Directive :=
  match simpleFormat F a argNum0 reordered0 format 0 {} with
  | .inl d => d
  | .inr (i0, f0) => Id.run do
    let end_ := format.length
    let mut out : GoString := []
    let mut f := f0
    let mut i := i0
    let mut argNum := argNum0
    let mut reordered := reordered0
    let mut goodArgNum := true
    let mut afterIndex := false
    -- Do we have an explicit argument index?
    let r := argNumber argNum format i a.length reordered goodArgNum
    argNum := r.1.1; i := r.1.2.1; afterIndex := r.1.2.2
    reordered := r.2.1; goodArgNum := r.2.2
    -- Do we have width?
    if i < end_ ∧ format.get? i = some '*' then
      i := i + 1
      let w := intFromArg F a argNum
      f := { f with wid := w.1, widPresent := w.2.1 }
      argNum := w.2.2
      if !f.widPresent then
        out := out ++ "%!(BADWIDTH)".toList
      if f.wid < 0 then
        f := { f with wid := -f.wid, minus := true, zero := false }
      afterIndex := false
    else
      let w := parsenum format i end_
      f := { f with wid := w.1, widPresent := w.2.1 }
      i := w.2.2
      if afterIndex ∧ f.widPresent then
        goodArgNum := false
    -- Do we have precision?
    if i + 1 < end_ ∧ format.get? i = some '.' then
      i := i + 1
      if afterIndex then
        goodArgNum := false
      let r := argNumber argNum format i a.length reordered goodArgNum
      argNum := r.1.1; i := r.1.2.1; afterIndex := r.1.2.2
      reordered := r.2.1; goodArgNum := r.2.2
      if i < end_ ∧ format.get? i = some '*' then
        i := i + 1
        let w := intFromArg F a argNum
        f := { f with prec := w.1, precPresent := w.2.1 }
        argNum := w.2.2
        if f.prec < 0 then
          f := { f with prec := 0, precPresent := false }
        if !f.precPresent then
          out := out ++ "%!(BADPREC)".toList
        afterIndex := false
      else
        let w := parsenum format i end_
        f := { f with prec := w.1, precPresent := w.2.1 }
        i := w.2.2
        if !f.precPresent then
          f := { f with prec := 0, precPresent := true }
    if !afterIndex then
      let r := argNumber argNum format i a.length reordered goodArgNum
      argNum := r.1.1; i := r.1.2.1; afterIndex := r.1.2.2
      reordered := r.2.1; goodArgNum := r.2.2
    match format.get? i with
    | none => return ⟨out ++ "%!(NOVERB)".toList, i, argNum, reordered⟩
    | some verb =>
      i := i + 1
      if verb = '%' then
        return ⟨out ++ ['%'], i, argNum, reordered⟩
      if !goodArgNum then
        return ⟨out ++ "%!".toList ++ [verb] ++ "(BADINDEX)".toList, i, argNum, reordered⟩
      match a.get? argNum with
      | none => return ⟨out ++ "%!".toList ++ [verb] ++ "(MISSING)".toList, i, argNum, reordered⟩
      | some arg =>
        if verb = 'w' ∨ verb = 'v' then
          f := { f with sharpV := f.sharp, sharp := false, plusV := f.plus, plus := false }
        return ⟨out ++ F.printArg f arg verb, i, argNum + 1, reordered⟩

/-- The check for extra operands at the end of `doPrintf`. -/
def extraArgs (a : List Value) (argNum : Nat) (reordered : Bool) : GoString :=
  if !reordered ∧ argNum < a.length then
    "%!(EXTRA ".toList ++
      List.intercalate ", ".toList ((a.drop argNum).map (fun arg =>
        if F.isNil arg then "<nil>".toList
        else F.typeString arg ++ '=' :: F.printArg {} arg 'v')) ++ [')']
  else []

/-- The loop of `(*pp).doPrintf` (label `formatLoop`) over the rest of the format.
Text up to the next percent sign is copied; at a percent sign one directive is
processed, and the `skip` characters it consumed are passed over.  At the end of the
format the extra operands are reported. -/
def formatLoop (a : List Value) : GoString → Nat → Nat → Bool → GoString
  | [], _, argNum, reordered => extraArgs F a argNum reordered
  | _ :: rest, skip + 1, argNum, reordered => formatLoop a rest skip argNum reordered
  | c :: rest, 0, argNum, reordered =>
    if c = '%' then
      let d := verbStep F a rest argNum reordered
      d.out ++ formatLoop a rest d.newi d.argNum d.reordered
    else c :: formatLoop a rest 0 argNum reordered

/-- Go `fmt.Sprintf`. -/
def Sprintf (format : GoString) (a : List Value) : GoString :=
  formatLoop F a format 0 0 false

end fmt

/-! ## log

`log.Logger` as jlog uses it.  `Init` creates the logger with flag word 0 and nothing
changes it afterwards, so `formatHeader` contributes the prefix and nothing else. -/

/-- An `io.Writer` seen from outside: the arguments of its `Write` calls, oldest
first.  (For the destination `io.Discard`, whose writes have no effect, package log
skips the call; such a sink is not told apart here.) -/
abbrev Writer := List GoString

/-- Everything written to the sink so far. -/
def Writer.contents (w : Writer) : GoString := w.flatten

/-- Go `log.Logger` with flag word 0: the prefix and the destination. -/
structure Logger where
  pfx : GoString
  out : Writer
deriving DecidableEq, Repr

/-- Go `log.New(out, prefix, 0)`. -/
def New (out : Writer) (pfx : GoString) : Logger := { pfx := pfx, out := out }

/-- Go `(*Logger).SetPrefix`. -/
def Logger.SetPrefix (l : Logger) (pfx : GoString) : Logger := { l with pfx := pfx }

/-- Go `(*Logger).Output`: the header (here the prefix), the text, and a newline when
the text is empty or does not end in one, passed to the writer in one `Write`. -/
def Logger.Output (l : Logger) (s : GoString) : Logger :=
  let buf := l.pfx ++ s
  let buf := if s.length = 0 ∨ s.getLast? ≠ some '\n' then buf ++ ['\n'] else buf
  { l with out := l.out ++ [buf] }

/-- Go `(*Logger).Print` applied to one string: `Output(2, fmt.Sprint(s))`, and
`Sprint` of a single string operand is that string. -/
def Logger.Print (l : Logger) (s : GoString) : Logger := l.Output s

/-- Go `(*Logger).Printf`: `Output(2, fmt.Sprintf(format, v...))`. -/
def Logger.Printf {Value : Type} (F : Printer Value) (l : Logger) (format : GoString)
    (v : List Value) : Logger :=
  l.Output (Sprintf F format v)

/-! ## jlog -/

/-- Source `JLogger`. -/
structure JLogger where
  stdlog : Logger
  level : Int
  flag : Int
deriving DecidableEq, Repr

/-- Source `Init`: allocates a fresh `JLogger` (zero `level`), installs a new
`log.Logger` and stores the flag.  `_jl` is the previous value of the package
variable (nil or allocated), which the assignment overwrites. -/
def Init (out : Writer) (pfx : GoString) (flag : Int) (_jl : Option JLogger) : JLogger :=
  { stdlog := New out pfx, level := 0, flag := flag }

/-- Source `SetLevel`. -/
def SetLevel (level : Int) (jl : JLogger) : JLogger := { jl with level := level }

section jlog
variable {Value : Type} (F : Printer Value)

/-- Source `Info`. -/
def Info (env : Env) (v : List Value) (jl : JLogger) : JLogger :=
  let jl := { jl with stdlog := jl.stdlog.SetPrefix "[INFO] ".toList }
  let s : GoString :=
    if jl.flag = ((LstdFlags ||| Lshortfile : Nat) : Int) then generateStdflagShortFile env
    else []
  let s := s ++ Sprintln F v
  { jl with stdlog := jl.stdlog.Print s }

/-- Source `Debug`. -/
def Debug (env : Env) (v : List Value) (jl : JLogger) : JLogger :=
  if jl.level ≠ INFO then
    let jl := { jl with stdlog := jl.stdlog.SetPrefix "[DEBUG] ".toList }
    let s : GoString :=
      if jl.flag = ((LstdFlags ||| Lshortfile : Nat) : Int) then generateStdflagShortFile env
      else []
    let s := s ++ Sprintln F v
    { jl with stdlog := jl.stdlog.Print s }
  else jl

/-- Source `Infof`. -/
def Infof (env : Env) (format : GoString) (v : List Value) (jl : JLogger) : JLogger :=
  let jl := { jl with stdlog := jl.stdlog.SetPrefix "[INFO] ".toList }
  let s : GoString :=
    if jl.flag = ((LstdFlags ||| Lshortfile : Nat) : Int) then generateStdflagShortFile env
    else []
  { jl with stdlog := jl.stdlog.Printf F (s ++ format) v }

/-- Source `Debugf`. -/
def Debugf (env : Env) (format : GoString) (v : List Value) (jl : JLogger) : JLogger :=
  if jl.level ≠ INFO then
    let jl := { jl with stdlog := jl.stdlog.SetPrefix "[DEBUG] ".toList }
    let s : GoString :=
      if jl.flag = ((LstdFlags ||| Lshortfile : Nat) : Int) then generateStdflagShortFile env
      else []
    { jl with stdlog := jl.stdlog.Printf F (s ++ format) v }
  else jl

/-- The context prefix of a logging call: the text of `generateStdflagShortFile` when
the flag word is exactly `LstdFlags|Lshortfile`, and empty otherwise. -/
def contextPrefix (flag : Int) (env : Env) : GoString :=
  if flag = ((LstdFlags ||| Lshortfile : Nat) : Int) then generateStdflagShortFile env else []

/-- The newline that ends an entry whose text is empty or lacks a final newline, and
nothing for a text that already ends in one. -/
def lineEnd (s : GoString) : GoString :=
  if s.length = 0 ∨ s.getLast? ≠ some '\n' then ['\n'] else []

/-- One call of a logging function, with what it reads from its surroundings. -/
inductive LogCall (Value : Type) where
  | Info (env : Env) (v : List Value)
  | Debug (env : Env) (v : List Value)
  | Infof (env : Env) (format : GoString) (v : List Value)
  | Debugf (env : Env) (format : GoString) (v : List Value)

/-- The effect of one logging call. -/
def LogCall.apply (c : LogCall Value) (jl : JLogger) : JLogger :=
  match c with
  | .Info env v => Jlog.Info F env v jl
  | .Debug env v => Jlog.Debug F env v jl
  | .Infof env format v => Jlog.Infof F env format v jl
  | .Debugf env format v => Jlog.Debugf F env format v jl

/-- A finite sequence of logging calls, in program order. -/
def runCalls (cs : List (LogCall Value)) (jl : JLogger) : JLogger :=
  cs.foldl (fun st c => c.apply F st) jl

end jlog

/-! ## A concrete operand universe

Strings and ints, rendered as package fmt renders them under the verbs `v`, `s`, `d`
and `T`.  It serves to evaluate calls such as `Info("hello")` and `Debug("x", 1)`. -/

/-- An operand of a logging call: a Go `string` or a Go `int`. -/
inductive Operand where
  | str (s : GoString)
  | int (n : Int)
deriving DecidableEq, Repr

/-- Go `(*fmt).writePadding` followed or preceded by the text (`pad`, `padString`). -/
def padString (f : fmtFlags) (s : GoString) : GoString :=
  if !f.widPresent || f.wid == 0 then s
  else
    let width := (f.wid - s.length).toNat
    if !f.minus then List.replicate width (if f.zero then '0' else ' ') ++ s
    else s ++ List.replicate width (if f.zero then '0' else ' ')

/-- Go `(*fmt).fmtS`: truncate to the precision, then pad to the width. -/
def fmtS (f : fmtFlags) (s : GoString) : GoString :=
  padString f (if f.precPresent then s.take f.prec.toNat else s)

/-- Go `(*fmt).fmtInteger` in base 10 for a signed operand. -/
def fmtInteger (f : fmtFlags) (n : Int) : GoString :=
  if f.precPresent ∧ f.prec = 0 ∧ n = 0 then
    List.replicate (if f.widPresent then f.wid.toNat else 0) ' '
  else
    let prec : Int :=
      if f.precPresent then f.prec
      else if f.zero ∧ f.widPresent then
        (if n < 0 ∨ f.plus ∨ f.space then f.wid - 1 else f.wid)
      else 0
    let ds := natDecimal n.natAbs
    let ds := List.replicate (prec - ds.length).toNat '0' ++ ds
    let ds := if n < 0 then '-' :: ds else if f.plus then '+' :: ds
      else if f.space then ' ' :: ds else ds
    padString { f with zero := false } ds

/-- Rendering of one operand under a verb.  The verbs `v` (without the sharp flag),
`s`, `d`, `T` and the verbs that do not apply to the operand are as in package fmt;
the renderings `q`, `x`, `X`, `b`, `o`, `O`, `c`, `U` and `#v` are not part of this
universe and come out as an inapplicable verb does. -/
def Operand.printArg (f : fmtFlags) (arg : Operand) (verb : Char) : GoString :=
  let typ : GoString := match arg with
    | .str _ => "string".toList
    | .int _ => "int".toList
  let plain : GoString := match arg with
    | .str s => fmtS f s
    | .int n => fmtInteger f n
  if verb = 'T' then fmtS f typ
  else
    let good : Bool := match arg with
      | .str _ => (verb == 'v' && !f.sharpV) || verb == 's'
      | .int _ => verb == 'v' || verb == 'd'
    if good then plain
    else "%!".toList ++ [verb] ++ "(".toList ++ typ ++ "=".toList ++ plain ++ ")".toList

/-- Package fmt over the universe `Operand`. -/
def operandPrinter : Printer Operand where
  printArg := Operand.printArg
  typeString := fun arg => match arg with
    | .str _ => "string".toList
    | .int _ => "int".toList
  isNil := fun _ => false
  intValue := fun arg => match arg with
    | .str _ => none
    | .int n => some n

/-! ## Decimal rendering -/

theorem digit_char_toNat (k : Nat) (hk : k < 10) : (Char.ofNat (48 + k)).toNat - 48 = k := by
  interval_cases k <;> decide

theorem digitsAux_value (fuel : Nat) :
    ∀ (n : Nat) (acc : List Char), n < fuel →
      (digitsAux fuel n acc).foldl (fun a c => 10 * a + (c.toNat - 48)) 0 =
        acc.foldl (fun a c => 10 * a + (c.toNat - 48)) n := by
  induction fuel with
  | zero => intro n acc h; omega
  | succ fuel ih =>
    intro n acc h
    have hd := digit_char_toNat (n % 10) (Nat.mod_lt _ (by decide))
    unfold digitsAux
    by_cases h0 : n / 10 = 0
    · have hn : n % 10 = n := Nat.mod_eq_of_lt (by omega)
      rw [hn] at hd
      simp only [h0, if_true, List.foldl_cons, hn, hd, Nat.mul_zero, Nat.zero_add]
    · have hlt : n / 10 < fuel := by omega
      simp only [h0, if_false]
      rw [ih _ _ hlt, List.foldl_cons, hd, Nat.div_add_mod]

/-- The digits of `natDecimal n` denote `n`: the fuel never runs out. -/
theorem natDecimal_value (n : Nat) : decimalValue (natDecimal n) = n := by
  unfold decimalValue natDecimal
  rw [digitsAux_value (n + 1) n [] (Nat.lt_succ_self n)]
  rfl

/-! ## Strings: digits, last index, base name -/

theorem digit_char_ne (k : Nat) (hk : k < 10) (c : Char) (hc : c.toNat < 48 ∨ 57 < c.toNat) :
    Char.ofNat (48 + k) ≠ c := by
  intro h
  subst h
  interval_cases k <;> revert hc <;> decide

theorem digitsAux_not_mem (c : Char) (hc : c.toNat < 48 ∨ 57 < c.toNat) :
    ∀ (fuel n : Nat) (acc : List Char), c ∉ acc → c ∉ digitsAux fuel n acc := by
  intro fuel
  induction fuel with
  | zero => intro n acc h; simpa [digitsAux] using h
  | succ fuel ih =>
    intro n acc h
    have hd : c ∉ Char.ofNat (48 + n % 10) :: acc := by
      intro hm
      rcases List.mem_cons.mp hm with h1 | h1
      · exact digit_char_ne (n % 10) (Nat.mod_lt _ (by decide)) c hc h1.symm
      · exact h h1
    unfold digitsAux
    by_cases h0 : n / 10 = 0
    · simpa [h0] using hd
    · simp only [h0, if_false]
      exact ih _ _ hd

theorem natDecimal_not_mem (c : Char) (hc : c.toNat < 48 ∨ 57 < c.toNat) (n : Nat) :
    c ∉ natDecimal n :=
  digitsAux_not_mem c hc _ _ _ (by simp)

theorem Itoa_not_mem (c : Char) (hc : c.toNat < 48 ∨ 57 < c.toNat) (hm : c ≠ '-') (i : Int) :
    c ∉ Itoa i := by
  unfold Itoa
  split
  · intro h
    rcases List.mem_cons.mp h with h1 | h1
    · exact hm h1
    · exact natDecimal_not_mem c hc _ h1
  · exact natDecimal_not_mem c hc _

theorem appendInt_not_mem (c : Char) (hc : c.toNat < 48 ∨ 57 < c.toNat) (hm : c ≠ '-')
    (x : Int) (w : Nat) : c ∉ appendInt x w := by
  have h0 : c ≠ '0' := by
    intro h; subst h; revert hc; decide
  have hb : c ∉ List.replicate (w - (natDecimal x.natAbs).length) '0' ++ natDecimal x.natAbs := by
    intro h
    rcases List.mem_append.mp h with h1 | h1
    · exact h0 (List.eq_of_mem_replicate h1)
    · exact natDecimal_not_mem c hc _ h1
  unfold appendInt
  simp only
  split
  · intro h
    rcases List.mem_cons.mp h with h1 | h1
    · exact hm h1
    · exact hb h1
  · exact hb

theorem lastIndexFrom_not_mem (c : Char) :
    ∀ (s : GoString) (pos : Nat) (best : Int), c ∉ s → lastIndexFrom c s pos best = best := by
  intro s
  induction s with
  | nil => intro pos best _; rfl
  | cons x xs ih =>
    intro pos best h
    have hx : x ≠ c := fun e => h (by simp [e])
    have hxs : c ∉ xs := fun e => h (List.mem_cons_of_mem _ e)
    simp [lastIndexFrom, hx, ih _ _ hxs]

theorem lastIndexFrom_mem (c : Char) :
    ∀ (s : GoString) (pos : Nat) (best : Int), c ∈ s →
      ∃ k : Nat, lastIndexFrom c s pos best = ((pos + k : Nat) : Int) ∧
        s.drop (k + 1) = afterLast c s := by
  intro s
  induction s with
  | nil => intro pos best h; simp at h
  | cons x xs ih =>
    intro pos best h
    by_cases hxs : c ∈ xs
    · obtain ⟨k, hk, hd⟩ := ih (pos + 1) (if x = c then (pos : Int) else best) hxs
      refine ⟨k + 1, ?_, ?_⟩
      · simp only [lastIndexFrom]
        rw [hk]
        congr 1
        omega
      · simp [afterLast, hxs, hd]
    · have hx : x = c := by
        rcases List.mem_cons.mp h with h1 | h1
        · exact h1.symm
        · exact absurd h1 hxs
      refine ⟨0, ?_, ?_⟩
      · simp [lastIndexFrom, hx, lastIndexFrom_not_mem c xs _ _ hxs]
      · simp [afterLast, hxs, hx]

theorem afterLast_not_mem (c : Char) : ∀ (s : GoString), c ∉ s → afterLast c s = s := by
  intro s
  induction s with
  | nil => intro _; rfl
  | cons x xs _ =>
    intro h
    have hx : x ≠ c := fun e => h (by simp [e])
    have hxs : c ∉ xs := fun e => h (List.mem_cons_of_mem _ e)
    simp [afterLast, hx, hxs]

/-- The slice after the last index of `sep` is the part after the last `sep`. -/
theorem sliceFrom_LastIndex (c : Char) (s : GoString) :
    sliceFrom s (LastIndex s c + 1) = afterLast c s := by
  by_cases h : c ∈ s
  · obtain ⟨k, hk, hd⟩ := lastIndexFrom_mem c s 0 (-1) h
    unfold sliceFrom LastIndex
    rw [hk]
    have : (((0 + k : Nat) : Int) + 1).toNat = k + 1 := by omega
    rw [this, hd]
  · unfold sliceFrom LastIndex
    rw [lastIndexFrom_not_mem c s 0 (-1) h, afterLast_not_mem c s h]
    simp

theorem afterLast_append (c : Char) (t : GoString) (ht : c ∉ t) :
    ∀ (s : GoString), afterLast c (s ++ t) = afterLast c s ++ t := by
  intro s
  induction s with
  | nil => simpa using afterLast_not_mem c t ht
  | cons x xs ih =>
    by_cases hxs : c ∈ xs
    · have : c ∈ xs ++ t := List.mem_append_left _ hxs
      simp [afterLast, hxs, this, ih]
    · have : c ∉ xs ++ t := by
        intro h
        rcases List.mem_append.mp h with h1 | h1
        · exact hxs h1
        · exact ht h1
      by_cases hx : x = c
      · simp [afterLast, hxs, this, hx]
      · simp [afterLast, hxs, this, hx]

theorem afterLast_self_not_mem (c : Char) : ∀ (s : GoString), c ∉ afterLast c s := by
  intro s
  induction s with
  | nil => simp [afterLast]
  | cons x xs ih =>
    by_cases hxs : c ∈ xs
    · simpa [afterLast, hxs] using ih
    · by_cases hx : x = c
      · simp [afterLast, hxs, hx]
      · have hne : ¬ c = x := fun e => hx e.symm
        simp [afterLast, hxs, hx, hne]

theorem afterLast_split (c : Char) :
    ∀ (s : GoString), c ∈ s → ∃ dir, s = dir ++ c :: afterLast c s := by
  intro s
  induction s with
  | nil => intro h; simp at h
  | cons x xs ih =>
    intro h
    by_cases hxs : c ∈ xs
    · obtain ⟨dir, hdir⟩ := ih hxs
      refine ⟨x :: dir, ?_⟩
      simp only [afterLast, hxs, if_true, List.cons_append]
      rw [← hdir]
    · have hx : x = c := by
        rcases List.mem_cons.mp h with h1 | h1
        · exact h1.symm
        · exact absurd h1 hxs
      exact ⟨[], by simp [afterLast, hxs, hx]⟩

/-- The short file of `generateStdflagShortFile` when the frame is available: base
name, colon, line number. -/
theorem shortFile_eq (fn : GoString) (ln : Int) :
    sliceFrom (fn ++ ":".toList ++ Itoa ln) (LastIndex (fn ++ ":".toList ++ Itoa ln) '/' + 1) =
      baseName fn ++ ":".toList ++ Itoa ln := by
  rw [sliceFrom_LastIndex, List.append_assoc, afterLast_append]
  · simp [baseName]
  · intro h
    rcases List.mem_append.mp h with h1 | h1
    · revert h1; decide
    · exact Itoa_not_mem '/' (by decide) (by decide) ln h1

/-! ## fmt and log -/

section
variable {Value : Type} (F : Printer Value)

theorem Sprintln_getLast (a : List Value) : (Sprintln F a).getLast? = some '\n' := by
  simp [Sprintln]

theorem Sprintln_append_getLast (p q : GoString) (a : List Value) :
    (p ++ (q ++ Sprintln F a)).getLast? = some '\n' := by
  unfold Sprintln
  rw [← List.append_assoc, ← List.append_assoc, List.getLast?_concat]

theorem Sprintln_length (a : List Value) : (Sprintln F a).length ≠ 0 := by
  simp [Sprintln]

/-- Text that ends in a newline reaches the writer with the prefix and nothing
else. -/
theorem Output_of_newline (l : Logger) (s : GoString) (h : s.getLast? = some '\n') :
    l.Output s = { l with out := l.out ++ [l.pfx ++ s] } := by
  have hl : s.length ≠ 0 := by
    intro h0
    have : s = [] := List.length_eq_zero.mp h0
    subst this
    simp at h
  simp [Logger.Output, h, hl]

theorem Output_eq (l : Logger) (s : GoString) :
    l.Output s = { l with out := l.out ++ [l.pfx ++ s ++ lineEnd s] } := by
  unfold Logger.Output lineEnd
  split <;> simp

theorem Output_line_getLast (p s : GoString) : (p ++ s ++ lineEnd s).getLast? = some '\n' := by
  unfold lineEnd
  split
  · simp
  · rename_i h
    simp only [not_or, not_not] at h
    have hs : s ≠ [] := by
      intro e; subst e; simp at h
    simp [List.getLast?_append, h.2]

/-- Text without a percent sign in front of a format is copied, and the rest is
processed as if it stood alone. -/
theorem formatLoop_append_literal (a : List Value) (f : GoString) (argNum : Nat) (r : Bool) :
    ∀ (c : GoString), '%' ∉ c →
      formatLoop F a (c ++ f) 0 argNum r = c ++ formatLoop F a f 0 argNum r := by
  intro c
  induction c with
  | nil => intro _; rfl
  | cons x xs ih =>
    intro h
    have hx : x ≠ '%' := fun e => h (by simp [e])
    have hxs : '%' ∉ xs := fun e => h (List.mem_cons_of_mem _ e)
    simp [formatLoop, hx, ih hxs]

theorem Sprintf_append_literal (c f : GoString) (a : List Value) (h : '%' ∉ c) :
    Sprintf F (c ++ f) a = c ++ Sprintf F f a :=
  formatLoop_append_literal F a f 0 false c h

end

theorem formatZone_not_mem_percent (offset : Int) : '%' ∉ formatZone offset := by
  unfold formatZone
  split
  · decide
  · simp only
    intro h
    rcases List.mem_cons.mp h with h1 | h1
    · split at h1 <;> revert h1 <;> decide
    · rcases List.mem_append.mp h1 with h2 | h2
      · exact appendInt_not_mem '%' (by decide) (by decide) _ _ h2
      · rcases List.mem_cons.mp h2 with h3 | h3
        · revert h3; decide
        · exact appendInt_not_mem '%' (by decide) (by decide) _ _ h3

theorem RFC3339_not_mem_percent (t : Time) : '%' ∉ RFC3339 t := by
  have hA := fun (x : Int) (w : Nat) => appendInt_not_mem '%' (by decide) (by decide) x w
  have hZ := formatZone_not_mem_percent t.offset
  simp [RFC3339, hA, hZ]

/-! ## The four logging functions, in closed form -/

section
variable {Value : Type} (F : Printer Value)

theorem Info_eq (env : Env) (v : List Value) (jl : JLogger) :
    Info F env v jl =
      { stdlog := { pfx := "[INFO] ".toList,
                    out := jl.stdlog.out ++
                      ["[INFO] ".toList ++ (contextPrefix jl.flag env ++ Sprintln F v)] },
        level := jl.level, flag := jl.flag } := by
  have h : (contextPrefix jl.flag env ++ Sprintln F v).getLast? = some '\n' := by
    simp [Sprintln]
  simp only [Info, Logger.Print, Logger.SetPrefix]
  rw [← contextPrefix, Output_of_newline _ _ h]

theorem Debug_eq (env : Env) (v : List Value) (jl : JLogger) :
    Debug F env v jl =
      if jl.level = INFO then jl
      else
        { stdlog := { pfx := "[DEBUG] ".toList,
                      out := jl.stdlog.out ++
                        ["[DEBUG] ".toList ++ (contextPrefix jl.flag env ++ Sprintln F v)] },
          level := jl.level, flag := jl.flag } := by
  have h : (contextPrefix jl.flag env ++ Sprintln F v).getLast? = some '\n' := by
    simp [Sprintln]
  by_cases hl : jl.level = INFO
  · simp [Debug, hl]
  · simp only [Debug, hl, ne_eq, not_false_eq_true, if_true, if_false, Logger.Print,
      Logger.SetPrefix]
    rw [← contextPrefix, Output_of_newline _ _ h]

theorem Infof_eq (env : Env) (format : GoString) (v : List Value) (jl : JLogger) :
    Infof F env format v jl =
      { stdlog := { pfx := "[INFO] ".toList,
                    out := jl.stdlog.out ++
                      ["[INFO] ".toList ++ Sprintf F (contextPrefix jl.flag env ++ format) v ++
                        lineEnd (Sprintf F (contextPrefix jl.flag env ++ format) v)] },
        level := jl.level, flag := jl.flag } := by
  simp only [Infof, Logger.Printf, Logger.SetPrefix]
  rw [Output_eq]
  rfl

theorem Debugf_eq (env : Env) (format : GoString) (v : List Value) (jl : JLogger) :
    Debugf F env format v jl =
      if jl.level = INFO then jl
      else
        { stdlog := { pfx := "[DEBUG] ".toList,
                      out := jl.stdlog.out ++
                        ["[DEBUG] ".toList ++ Sprintf F (contextPrefix jl.flag env ++ format) v ++
                          lineEnd (Sprintf F (contextPrefix jl.flag env ++ format) v)] },
          level := jl.level, flag := jl.flag } := by
  by_cases hl : jl.level = INFO
  · simp [Debugf, hl]
  · simp only [Debugf, hl, ne_eq, not_false_eq_true, if_true, if_false, Logger.Printf,
      Logger.SetPrefix]
    rw [Output_eq]
    rfl

theorem apply_level_flag (c : LogCall Value) (jl : JLogger) :
    (c.apply F jl).level = jl.level ∧ (c.apply F jl).flag = jl.flag := by
  cases c with
  | Info env v => simp [LogCall.apply, Info_eq]
  | Debug env v =>
    simp only [LogCall.apply, Debug_eq]
    split <;> simp
  | Infof env format v => simp [LogCall.apply, Infof_eq]
  | Debugf env format v =>
    simp only [LogCall.apply, Debugf_eq]
    split <;> simp

theorem runCalls_level_flag (cs : List (LogCall Value)) :
    ∀ (jl : JLogger), (runCalls F cs jl).level = jl.level ∧ (runCalls F cs jl).flag = jl.flag := by
  induction cs with
  | nil => intro jl; exact ⟨rfl, rfl⟩
  | cons c cs ih =>
    intro jl
    have h1 := apply_level_flag F c jl
    have h2 := ih (c.apply F jl)
    simp only [runCalls, List.foldl_cons] at h2 ⊢
    exact ⟨h2.1.trans h1.1, h2.2.trans h1.2⟩

end

/-! ## Claims -/

/-- C1: in every state reached by `SetLevel(L)` (from any earlier state) and any later
logging calls, `Debug` and `Debugf` leave the sink as it is when `L` is INFO, and
otherwise append exactly one entry, a line ending in a newline, in a single write.
The gate is "not equal to INFO": any other integer enables the output. -/
theorem C1_debug_gate {Value : Type} (F : Printer Value)
    (jl : JLogger) (L : Int) (cs : List (LogCall Value)) (env : Env)
    (format : GoString) (v : List Value) :
    (if L = INFO then
        (Debug F env v (runCalls F cs (SetLevel L jl))).stdlog.out =
          (runCalls F cs (SetLevel L jl)).stdlog.out
      else
        ∃ line, line.getLast? = some '\n' ∧
          (Debug F env v (runCalls F cs (SetLevel L jl))).stdlog.out =
            (runCalls F cs (SetLevel L jl)).stdlog.out ++ [line]) ∧
    (if L = INFO then
        (Debugf F env format v (runCalls F cs (SetLevel L jl))).stdlog.out =
          (runCalls F cs (SetLevel L jl)).stdlog.out
      else
        ∃ line, line.getLast? = some '\n' ∧
          (Debugf F env format v (runCalls F cs (SetLevel L jl))).stdlog.out =
            (runCalls F cs (SetLevel L jl)).stdlog.out ++ [line]) := by
  have hlev : (runCalls F cs (SetLevel L jl)).level = L :=
    (runCalls_level_flag F cs (SetLevel L jl)).1
  rw [Debug_eq, Debugf_eq, hlev]
  by_cases hL : L = INFO
  · simp [hL]
  · simp only [hL, if_false]
    refine ⟨⟨_, ?_, rfl⟩, ⟨_, ?_, rfl⟩⟩
    · exact Sprintln_append_getLast F _ _ _
    · exact Output_line_getLast _ _

/-- C2: whatever the stored level and flag and whatever calls came before (a `Debug`
included), `Info` and `Infof` perform exactly one write, and the bytes written begin
with the line prefix `[INFO] `. -/
theorem C2_info_always_written {Value : Type} (F : Printer Value)
    (jl : JLogger) (cs : List (LogCall Value)) (env : Env)
    (format : GoString) (v : List Value) :
    (∃ line, "[INFO] ".toList <+: line ∧
      (Info F env v (runCalls F cs jl)).stdlog.out = (runCalls F cs jl).stdlog.out ++ [line]) ∧
    (∃ line, "[INFO] ".toList <+: line ∧
      (Infof F env format v (runCalls F cs jl)).stdlog.out =
        (runCalls F cs jl).stdlog.out ++ [line]) := by
  rw [Info_eq, Infof_eq]
  refine ⟨⟨_, ?_, rfl⟩, ⟨_, ?_, rfl⟩⟩
  · exact List.prefix_append _ _
  · rw [List.append_assoc]
    exact List.prefix_append _ _

/-- C3: with any flag word other than `Ldate|Ltime|Lshortfile`, `Info(v...)` writes
exactly `[INFO] ` followed by the `Sprintln` rendering of `v`, and nothing else; that
rendering is the operands under verb v, separated by single spaces, and one newline. -/
theorem C3_info_plain {Value : Type} (F : Printer Value)
    (jl : JLogger) (env : Env) (v : List Value)
    (hflag : jl.flag ≠ ((LstdFlags ||| Lshortfile : Nat) : Int)) :
    (Info F env v jl).stdlog.out = jl.stdlog.out ++ ["[INFO] ".toList ++ Sprintln F v] ∧
    Sprintln F v =
      List.intercalate [' '] (v.map (fun arg => F.printArg {} arg 'v')) ++ ['\n'] := by
  refine ⟨?_, rfl⟩
  rw [Info_eq]
  simp [contextPrefix, hflag]

/-- C3 at `Init(buffer, "", 0)` followed by `Info("hello")`: the buffer holds exactly
`[INFO] hello` and a newline. -/
theorem C3_info_plain_witness :
    (Init [] [] 0 none).flag ≠ ((LstdFlags ||| Lshortfile : Nat) : Int) ∧
    (Info operandPrinter ⟨⟨2024, 1, 2, 15, 4, 5, 0⟩, ⟨"/srv/app/main.go".toList, 12, true⟩⟩
        [Operand.str "hello".toList] (Init [] [] 0 none)).stdlog.out =
      (Init [] [] 0 none).stdlog.out ++
        ["[INFO] ".toList ++ Sprintln operandPrinter [Operand.str "hello".toList]] ∧
    Sprintln operandPrinter [Operand.str "hello".toList] = "hello\n".toList ∧
    Writer.contents
      (Info operandPrinter ⟨⟨2024, 1, 2, 15, 4, 5, 0⟩, ⟨"/srv/app/main.go".toList, 12, true⟩⟩
        [Operand.str "hello".toList] (Init [] [] 0 none)).stdlog.out = "[INFO] hello\n".toList :=
  ⟨by decide,
   (C3_info_plain operandPrinter (Init [] [] 0 none)
     ⟨⟨2024, 1, 2, 15, 4, 5, 0⟩, ⟨"/srv/app/main.go".toList, 12, true⟩⟩
     [Operand.str "hello".toList] (by decide)).1,
   by decide, by decide⟩

/-- C4: with the flag word exactly `Ldate|Ltime|Lshortfile` and an available caller
frame, `Info` writes `[INFO] `, the RFC 3339 timestamp, a space, the base name of the
file, a colon, the decimal line number, a colon and a space, and the `Sprintln`
rendering, in that order; `Debug` writes the same after `[DEBUG] ` unless the level is
INFO.  The base name has no slash and is the part of the path after its last slash. -/
theorem C4_info_context {Value : Type} (F : Printer Value)
    (jl : JLogger) (env : Env) (v : List Value)
    (hflag : jl.flag = ((LstdFlags ||| Lshortfile : Nat) : Int))
    (hok : env.caller.ok = true) :
    (Info F env v jl).stdlog.out =
        jl.stdlog.out ++ ["[INFO] ".toList ++ RFC3339 env.now ++ " ".toList ++
          baseName env.caller.file ++ ":".toList ++ Itoa env.caller.line ++ ": ".toList ++
          Sprintln F v] ∧
    (Debug F env v jl).stdlog.out =
        (if jl.level = INFO then jl.stdlog.out
         else jl.stdlog.out ++ ["[DEBUG] ".toList ++ RFC3339 env.now ++ " ".toList ++
          baseName env.caller.file ++ ":".toList ++ Itoa env.caller.line ++ ": ".toList ++
          Sprintln F v]) ∧
    '/' ∉ baseName env.caller.file ∧
    ('/' ∈ env.caller.file → ∃ dir, env.caller.file = dir ++ '/' :: baseName env.caller.file) ∧
    ('/' ∉ env.caller.file → baseName env.caller.file = env.caller.file) := by
  have hc : contextPrefix jl.flag env =
      RFC3339 env.now ++ " ".toList ++ baseName env.caller.file ++ ":".toList ++
        Itoa env.caller.line ++ ": ".toList := by
    simp only [contextPrefix, hflag, if_true, generateStdflagShortFile, hok]
    rw [shortFile_eq]
    simp
  refine ⟨?_, ?_, afterLast_self_not_mem _ _, afterLast_split _ _, afterLast_not_mem _ _⟩
  · rw [Info_eq, hc]
    simp
  · rw [Debug_eq, hc]
    split <;> simp

/-- C4 at `Init(buffer, "", Ldate|Ltime|Lshortfile)`, `SetLevel(DEBUG)`,
`Debug("x", 1)` called from line 12 of `/srv/app/main.go`. -/
theorem C4_info_context_witness :
    (SetLevel DEBUG (Init [] [] 19 none)).flag = ((LstdFlags ||| Lshortfile : Nat) : Int) ∧
    (Env.mk ⟨2024, 1, 2, 15, 4, 5, 0⟩ ⟨"/srv/app/main.go".toList, 12, true⟩).caller.ok = true ∧
    (Debug operandPrinter ⟨⟨2024, 1, 2, 15, 4, 5, 0⟩, ⟨"/srv/app/main.go".toList, 12, true⟩⟩
        [Operand.str "x".toList, Operand.int 1] (SetLevel DEBUG (Init [] [] 19 none))).stdlog.out =
      ["[DEBUG] 2024-01-02T15:04:05Z main.go:12: x 1\n".toList] := by
  have h := C4_info_context operandPrinter (SetLevel DEBUG (Init [] [] 19 none))
    ⟨⟨2024, 1, 2, 15, 4, 5, 0⟩, ⟨"/srv/app/main.go".toList, 12, true⟩⟩
    [Operand.str "x".toList, Operand.int 1] (by decide) rfl
  refine ⟨by decide, rfl, ?_⟩
  rw [h.2.1]
  decide

/-- The prefix handed to `Init` has no effect on what `Info` does next: the state
after the call is the same for every prefix. -/
theorem Info_Init_pfx {Value : Type} (F : Printer Value) (prior : Option JLogger)
    (out : Writer) (p q : GoString) (flag : Int) (env : Env) (v : List Value) :
    Info F env v (Init out p flag prior) = Info F env v (Init out q flag prior) := by
  rw [Info_eq, Info_eq]
  rfl

/-- C5: evaluation at `Init(out, "app: ", 0)` followed by `Info("hello")`: the entry
written is `[INFO] hello` and a newline; it does not begin with the prefix `app: `
that was passed to `Init`. -/
theorem C5_init_prefix_dropped :
    (Info operandPrinter ⟨⟨2024, 1, 2, 15, 4, 5, 0⟩, ⟨"/srv/app/main.go".toList, 12, true⟩⟩
        [Operand.str "hello".toList] (Init [] "app: ".toList 0 none)).stdlog.out =
      ["[INFO] hello\n".toList] ∧
    ¬ ("app: ".toList <+: "[INFO] hello\n".toList) := by
  decide

/-- C6, as stated, fails: with flag word 0, `Infof("hi")` renders `hi`, which does not
end in a newline, and the entry written is `[INFO] hi` followed by a newline. -/
theorem C6_counterexample :
    Sprintf operandPrinter "hi".toList [] = "hi".toList ∧
    (Infof operandPrinter ⟨⟨2024, 1, 2, 15, 4, 5, 0⟩, ⟨"/srv/app/main.go".toList, 12, true⟩⟩
        "hi".toList [] (Init [] [] 0 none)).stdlog.out = ["[INFO] hi\n".toList] ∧
    (Infof operandPrinter ⟨⟨2024, 1, 2, 15, 4, 5, 0⟩, ⟨"/srv/app/main.go".toList, 12, true⟩⟩
        "hi".toList [] (Init [] [] 0 none)).stdlog.out ≠ ["[INFO] hi".toList] := by
  decide

/-- C6, amended: `Infof` (and `Debugf`, unless the level is INFO) writes exactly the
line prefix, the `Sprintf` rendering of context prefix and format with the operands,
and then a newline when that rendering is empty or does not end in one; a rendering
that ends in a newline is written as it is. -/
theorem C6_formatted_entry {Value : Type} (F : Printer Value)
    (jl : JLogger) (env : Env) (format : GoString) (v : List Value) :
    (Infof F env format v jl).stdlog.out =
        jl.stdlog.out ++ ["[INFO] ".toList ++ Sprintf F (contextPrefix jl.flag env ++ format) v ++
          lineEnd (Sprintf F (contextPrefix jl.flag env ++ format) v)] ∧
    (Debugf F env format v jl).stdlog.out =
        (if jl.level = INFO then jl.stdlog.out
         else jl.stdlog.out ++
          ["[DEBUG] ".toList ++ Sprintf F (contextPrefix jl.flag env ++ format) v ++
            lineEnd (Sprintf F (contextPrefix jl.flag env ++ format) v)]) ∧
    (∀ r : GoString, lineEnd r = if r.getLast? = some '\n' then [] else ['\n']) := by
  refine ⟨?_, ?_, ?_⟩
  · rw [Infof_eq]
  · rw [Debugf_eq]
    split <;> rfl
  · intro r
    unfold lineEnd
    by_cases h : r.getLast? = some '\n'
    · have hl : r.length ≠ 0 := by
        intro h0
        have : r = [] := List.length_eq_zero.mp h0
        subst this
        simp at h
      simp [h, hl]
    · simp [h]

/-- The context prefix contains no percent sign unless the base name of the caller's
file does. -/
theorem contextPrefix_not_mem_percent (flag : Int) (env : Env)
    (h : env.caller.ok = true → '%' ∉ baseName env.caller.file) :
    '%' ∉ contextPrefix flag env := by
  unfold contextPrefix
  split
  · have hT := RFC3339_not_mem_percent env.now
    by_cases hok : env.caller.ok = true
    · have hb := h hok
      have hI := Itoa_not_mem '%' (by decide) (by decide) env.caller.line
      simp only [generateStdflagShortFile, hok, if_true]
      rw [shortFile_eq]
      simp [hT, hb, hI]
    · simp [generateStdflagShortFile, hok, hT]
  · simp

/-- When the base name of the caller's file has no percent sign, the context prefix
in front of a format is reproduced verbatim and the format is rendered as if alone. -/
theorem Sprintf_contextPrefix {Value : Type} (F : Printer Value)
    (flag : Int) (env : Env) (format : GoString) (a : List Value)
    (h : env.caller.ok = true → '%' ∉ baseName env.caller.file) :
    Sprintf F (contextPrefix flag env ++ format) a =
      contextPrefix flag env ++ Sprintf F format a :=
  Sprintf_append_literal F _ _ _ (contextPrefix_not_mem_percent flag env h)

/-- A dot that ends the format is not a precision: it is taken as the verb, which
applies to no operand.  A dot followed by more text starts a precision. -/
theorem Sprintf_trailing_dot :
    Sprintf operandPrinter "50%.".toList [Operand.int 7] = "50%!.(int=7)".toList ∧
    Sprintf operandPrinter "50%.".toList [] = "50%!.(MISSING)".toList ∧
    Sprintf operandPrinter "50%.d".toList [Operand.int 7] = "507".toList ∧
    (Infof operandPrinter ⟨⟨2024, 1, 2, 15, 4, 5, 0⟩, ⟨"/srv/app/main.go".toList, 12, true⟩⟩
        "50%.".toList [Operand.int 7] (Init [] [] 0 none)).stdlog.out =
      ["[INFO] 50%!.(int=7)\n".toList] := by
  decide

/-- C7 at a caller in `/srv/app/100%.go`, line 12: the context prefix holds the text
`%.g`, which `Sprintf` reads as a directive.  With no operand it is rendered as
`%!g(MISSING)`; with the operand 7 it consumes that operand, and the directive of the
user's format finds none. -/
theorem C7_percent_in_file_name :
    generateStdflagShortFile ⟨⟨2024, 1, 2, 15, 4, 5, 0⟩, ⟨"/srv/app/100%.go".toList, 12, true⟩⟩ =
      "2024-01-02T15:04:05Z 100%.go:12: ".toList ∧
    Sprintf operandPrinter ("2024-01-02T15:04:05Z 100%.go:12: ".toList ++ "hello".toList) [] =
      "2024-01-02T15:04:05Z 100%!g(MISSING)o:12: hello".toList ∧
    Sprintf operandPrinter ("2024-01-02T15:04:05Z 100%.go:12: ".toList ++ "hello".toList) [] ≠
      "2024-01-02T15:04:05Z 100%.go:12: ".toList ++ Sprintf operandPrinter "hello".toList [] ∧
    Sprintf operandPrinter ("2024-01-02T15:04:05Z 100%.go:12: ".toList ++ "n=%d".toList)
        [Operand.int 7] =
      "2024-01-02T15:04:05Z 100%!g(int=7)o:12: n=%!d(MISSING)".toList ∧
    Sprintf operandPrinter "n=%d".toList [Operand.int 7] = "n=7".toList ∧
    (Infof operandPrinter
        ⟨⟨2024, 1, 2, 15, 4, 5, 0⟩, ⟨"/srv/app/100%.go".toList, 12, true⟩⟩
        "n=%d".toList [Operand.int 7] (Init [] [] 19 none)).stdlog.out =
      ["[INFO] 2024-01-02T15:04:05Z 100%!g(int=7)o:12: n=%!d(MISSING)\n".toList] := by
  decide

/-- C8: `Init` yields a state with level 0, the flag argument and a logger on the new
sink, whatever the previous state was; a `Debug` or `Debugf` call made after it, with
only logging calls in between (no `SetLevel`), appends one entry to the sink. -/
theorem C8_init_replaces {Value : Type} (F : Printer Value)
    (prior : Option JLogger) (out : Writer) (p : GoString) (flag : Int)
    (cs : List (LogCall Value)) (env : Env) (format : GoString) (v : List Value) :
    Init out p flag prior = { stdlog := { pfx := p, out := out }, level := 0, flag := flag } ∧
    (∃ line, line.getLast? = some '\n' ∧
      (Debug F env v (runCalls F cs (Init out p flag prior))).stdlog.out =
        (runCalls F cs (Init out p flag prior)).stdlog.out ++ [line]) ∧
    (∃ line, line.getLast? = some '\n' ∧
      (Debugf F env format v (runCalls F cs (Init out p flag prior))).stdlog.out =
        (runCalls F cs (Init out p flag prior)).stdlog.out ++ [line]) := by
  have hlev : (runCalls F cs (Init out p flag prior)).level = 0 :=
    (runCalls_level_flag F cs (Init out p flag prior)).1
  have h0 : ¬ ((0 : Int) = INFO) := by decide
  refine ⟨rfl, ?_, ?_⟩
  · rw [Debug_eq, hlev, if_neg h0]
    exact ⟨_, Sprintln_append_getLast F _ _ _, rfl⟩
  · rw [Debugf_eq, hlev, if_neg h0]
    exact ⟨_, Output_line_getLast _ _, rfl⟩

/-- C9: when `runtime.Caller` reports failure, `generateStdflagShortFile` returns the
timestamp, a space, and a colon and a space; the file and line it was handed do not
appear. -/
theorem C9_caller_unavailable (env : Env) (hok : env.caller.ok = false) :
    generateStdflagShortFile env = RFC3339 env.now ++ " ".toList ++ ": ".toList := by
  simp [generateStdflagShortFile, hok]

/-- C9 at a failed capture that still carries a file and a line. -/
theorem C9_caller_unavailable_witness :
    (Env.mk ⟨2024, 1, 2, 15, 4, 5, 3600⟩ ⟨"/srv/app/main.go".toList, 12, false⟩).caller.ok = false ∧
    generateStdflagShortFile
        ⟨⟨2024, 1, 2, 15, 4, 5, 3600⟩, ⟨"/srv/app/main.go".toList, 12, false⟩⟩ =
      RFC3339 ⟨2024, 1, 2, 15, 4, 5, 3600⟩ ++ " ".toList ++ ": ".toList ∧
    generateStdflagShortFile
        ⟨⟨2024, 1, 2, 15, 4, 5, 3600⟩, ⟨"/srv/app/main.go".toList, 12, false⟩⟩ =
      "2024-01-02T15:04:05+01:00 : ".toList :=
  ⟨rfl,
   C9_caller_unavailable ⟨⟨2024, 1, 2, 15, 4, 5, 3600⟩, ⟨"/srv/app/main.go".toList, 12, false⟩⟩ rfl,
   by decide⟩

/-- C10: any finite sequence of `Info`, `Infof`, `Debug` and `Debugf` calls leaves the
level and the flag as they were; `SetLevel` stores the level and changes nothing else;
and after `SetLevel(INFO)` and any sequence of logging calls, a `Debug` or `Debugf`
call changes nothing, the sink included. -/
theorem C10_level_flag_preserved {Value : Type} (F : Printer Value)
    (jl : JLogger) (cs : List (LogCall Value)) (L : Int)
    (env : Env) (format : GoString) (v : List Value) :
    (runCalls F cs jl).level = jl.level ∧
    (runCalls F cs jl).flag = jl.flag ∧
    SetLevel L jl = { stdlog := jl.stdlog, level := L, flag := jl.flag } ∧
    Debug F env v (runCalls F cs (SetLevel INFO jl)) = runCalls F cs (SetLevel INFO jl) ∧
    Debugf F env format v (runCalls F cs (SetLevel INFO jl)) =
      runCalls F cs (SetLevel INFO jl) := by
  have hlev : (runCalls F cs (SetLevel INFO jl)).level = INFO :=
    (runCalls_level_flag F cs (SetLevel INFO jl)).1
  refine ⟨(runCalls_level_flag F cs jl).1, (runCalls_level_flag F cs jl).2, rfl, ?_, ?_⟩
  · rw [Debug_eq, if_pos hlev]
  · rw [Debugf_eq, if_pos hlev]

end Jlog
